import Mathlib

/-!
Verification development for the MBSE maturity-evaluation platform
(ingest → predicate ladder → evidence/RAG retrieval pipeline).

The file shallowly embeds, in order:
* the answer-packer grounding step and the maturity-ladder scoring
  (modelled from the spec, since the backend engine source is not in the
  repository snapshot; response/result shapes follow the frontend types);
* the rag.sqlite schema (the doc table, the external-content FTS index
  with its sync triggers, the unicode61 tokenizer with separators _ . / -,
  and the v_search / v_summaries / v_recent views);
* the Sparx-style tempdb schema with its UNIQUE guid columns;
* the frontend services pollJobStatus and uploadAndAnalyze.
-/

namespace MBSE

/-! ## Retrieval & Answer Packer (grounding), modelled from the spec.
The ChatResponse shape is taken from frontend chat-service.ts. -/

structure Citation where
  doc_id : String
  title : String
deriving DecidableEq

structure ChatResponse where
  answer : String
  citations : List Citation
  retrieved : Nat
  model_id : String
  vendor : String
  version : String
  model : String
  provider : String
deriving DecidableEq

/-- Modelled from the spec: the Retrieval & Answer Packer's grounding
validation (its backend implementation is not in the repository snapshot).
After the provider returns an answer plus claimed citations, the packer
checks every citation identifier against the retrieved set; if any claimed
citation is not among the retrieved document identifiers, the answer is
replaced by an explicit "could not verify" response with no citations. -/
def packAnswer (retrievedIds : List String) (answer : String)
    (claimed : List Citation)
    (model_id vendor version model provider : String) : ChatResponse :=
  if claimed.all (fun c => retrievedIds.contains c.doc_id) then
    ⟨answer, claimed, retrievedIds.length, model_id, vendor, version, model, provider⟩
  else
    ⟨"could not verify", [], retrievedIds.length, model_id, vendor, version, model, provider⟩

/-! ## Predicate ladder scoring, modelled from the spec.
The per-predicate result shape (id, mml level, passed) follows the
AnalyzeResponse results entries in the frontend services. -/

structure PredicateResult where
  id : String
  mml : Nat
  passed : Bool
deriving DecidableEq

/-- Modelled from the spec: all predicates registered at ladder level l pass. -/
def levelPasses (rs : List PredicateResult) (l : Nat) : Bool :=
  (rs.filter (fun p => p.mml == l)).all (fun p => p.passed)

/-- Modelled from the spec: every level 1..L passes in full. -/
def allPassUpTo (rs : List PredicateResult) (L : Nat) : Bool :=
  (List.range L).all (fun i => levelPasses rs (i + 1))

/-- Highest ladder level that appears among the predicate results. -/
def maxLevel (rs : List PredicateResult) : Nat :=
  rs.foldl (fun a p => max a p.mml) 0

/-- Modelled from the spec: the overall maturity score is the highest level
L such that all predicates for level L and every lower level pass
(strict monotonic ladder semantics, no partial credit). -/
def maturityLevel (rs : List PredicateResult) : Nat :=
  Nat.findGreatest (fun L => allPassUpTo rs L = true) (maxLevel rs)

lemma levelPasses_of_allPassUpTo {rs : List PredicateResult} {L l : Nat}
    (h : allPassUpTo rs L = true) (h1 : 1 ≤ l) (h2 : l ≤ L) :
    levelPasses rs l = true := by
  have hmem : l - 1 ∈ List.range L := by
    simp only [List.mem_range]
    omega
  have := (List.all_eq_true.mp h) _ hmem
  simpa [Nat.sub_add_cancel h1] using this

lemma maxLevel_ge {rs : List PredicateResult} {p : PredicateResult}
    (hp : p ∈ rs) : p.mml ≤ maxLevel rs := by
  unfold maxLevel
  induction rs generalizing p with
  | nil => cases hp
  | cons q t ih =>
    rcases List.mem_cons.mp hp with h | h
    · subst h
      have hbase : max 0 p.mml ≤ List.foldl (fun a q => max a q.mml) (max 0 p.mml) t := by
        clear ih hp
        generalize max 0 p.mml = b
        induction t generalizing b with
        | nil => simp
        | cons r t iht =>
          simp only [List.foldl_cons]
          exact le_trans (Nat.le_max_left b r.mml) (iht _)
      simpa using le_trans (Nat.le_max_right 0 p.mml) hbase
    · have hmono : ∀ (t : List PredicateResult) (a b : Nat), a ≤ b →
          List.foldl (fun a q => max a q.mml) a t ≤ List.foldl (fun a q => max a q.mml) b t := by
        intro t
        induction t with
        | nil => intro a b hab; simpa using hab
        | cons r t iht =>
          intro a b hab
          simp only [List.foldl_cons]
          exact iht _ _ (max_le_max hab (le_refl r.mml))
      calc p.mml ≤ List.foldl (fun a q => max a q.mml) 0 t := ih h
        _ ≤ List.foldl (fun a q => max a q.mml) (max 0 q.mml) t :=
            hmono t 0 (max 0 q.mml) (Nat.zero_le _)

/-- C2: the reported maturity score is the highest level L with all of
levels 1..L passing: the score itself satisfies `allPassUpTo`, any level
whose full ladder prefix passes is below or at the score, and a single
failed predicate at (positive) level N caps the score strictly below N,
regardless of results at higher levels. -/
theorem maturity_ladder_monotonic :
    (∀ rs : List PredicateResult, allPassUpTo rs (maturityLevel rs) = true) ∧
    (∀ (rs : List PredicateResult) (L : Nat), L ≤ maxLevel rs →
      allPassUpTo rs L = true → L ≤ maturityLevel rs) ∧
    (∀ (rs : List PredicateResult) (p : PredicateResult), p ∈ rs →
      p.passed = false → 1 ≤ p.mml → maturityLevel rs < p.mml) := by
  refine ⟨?_, ?_, ?_⟩
  · intro rs
    by_cases h0 : maturityLevel rs = 0
    · rw [h0]
      rfl
    · exact Nat.findGreatest_of_ne_zero rfl h0
  · intro rs L hle hpass
    exact Nat.le_findGreatest hle hpass
  · intro rs p hp hfail hpos
    by_contra hcon
    push_neg at hcon
    have hscore : allPassUpTo rs (maturityLevel rs) = true := by
      by_cases h0 : maturityLevel rs = 0
      · omega
      · exact Nat.findGreatest_of_ne_zero rfl h0
    have hlvl : levelPasses rs p.mml = true :=
      levelPasses_of_allPassUpTo hscore hpos hcon
    have hpmem : p ∈ rs.filter (fun q => q.mml == p.mml) := by
      simp [List.mem_filter, hp]
    have := (List.all_eq_true.mp hlvl) _ hpmem
    simp [hfail] at this

/-- Concrete run of the ladder: a level-2 predicate fails while a level-3
predicate passes, and the reported score still caps below 2. -/
theorem maturity_ladder_monotonic_witness :
    maturityLevel
      [⟨"mml_1.count_tables", 1, true⟩,
       ⟨"mml_2.block_has_port", 2, false⟩,
       ⟨"mml_3.requirements_traced", 3, true⟩] < 2 :=
  maturity_ladder_monotonic.2.2 _
    ⟨"mml_2.block_has_port", 2, false⟩ (by decide) rfl (by decide)

/-- C1: every citation in a released packer answer refers to a retrieved
document identifier, and when any claimed citation is ungrounded the whole
answer is replaced by the explicit "could not verify" response with an
empty citation list. -/
theorem packer_grounding
    (retrievedIds : List String) (answer : String) (claimed : List Citation)
    (model_id vendor version model provider : String) :
    (∀ c ∈ (packAnswer retrievedIds answer claimed
        model_id vendor version model provider).citations,
      c.doc_id ∈ retrievedIds) ∧
    ((¬ claimed.all (fun c => retrievedIds.contains c.doc_id) = true) →
      (packAnswer retrievedIds answer claimed
        model_id vendor version model provider).answer = "could not verify" ∧
      (packAnswer retrievedIds answer claimed
        model_id vendor version model provider).citations = []) := by
  unfold packAnswer
  by_cases h : claimed.all (fun c => retrievedIds.contains c.doc_id) = true
  · constructor
    · intro c hc
      simp only [if_pos h] at hc
      have := (List.all_eq_true.mp h) _ hc
      simpa using this
    · intro hcon
      exact absurd h hcon
  · constructor
    · intro c hc
      simp only [if_neg h] at hc
      simp at hc
    · intro _
      rw [if_neg h]
      exact ⟨rfl, rfl⟩

/-- Concrete grounding check: an answer citing the unretrieved document
"fabricated/doc" is replaced by the "could not verify" response. -/
theorem packer_grounding_witness :
    (packAnswer ["m1/mml_2.block_has_port/block/425"] "answer text"
        [⟨"fabricated/doc", "t"⟩] "m1" "sparx" "17.1" "llm" "local").answer
      = "could not verify" ∧
    (packAnswer ["m1/mml_2.block_has_port/block/425"] "answer text"
        [⟨"fabricated/doc", "t"⟩] "m1" "sparx" "17.1" "llm" "local").citations
      = [] :=
  (packer_grounding ["m1/mml_2.block_has_port/block/425"] "answer text"
      [⟨"fabricated/doc", "t"⟩] "m1" "sparx" "17.1" "llm" "local").2
    (by decide)

/-! ## rag.sqlite schema: the doc table and the external-content FTS index.
Embeds src/backend/app/artifacts/rag/schema.sql: the doc base table
(doc_id TEXT PRIMARY KEY), the doc_fts virtual table over
(title, ctx_hdr, body_text) keyed by rowid, and the doc_ai / doc_ad /
doc_au triggers that keep doc_fts in sync with doc. -/

structure Doc where
  doc_id : String
  model_id : String
  vendor : String
  version : String
  mml : Option Int
  probe_id : String
  doc_type : String
  subject_type : String
  subject_id : String
  title : String
  ctx_hdr : String
  body_text : String
  json_metadata : String
  ts_ms : Option Int
deriving DecidableEq

/-- The searchable projection a doc row contributes to doc_fts:
(rowid, title, ctx_hdr, body_text). -/
def projFts (r : Nat × Doc) : Nat × String × String × String :=
  (r.1, r.2.title, r.2.ctx_hdr, r.2.body_text)

/-- State of one model's rag.sqlite: the doc table rows (with rowids),
the doc_fts rows, and the next fresh rowid. -/
structure RagDB where
  docRows : List (Nat × Doc)
  ftsRows : List (Nat × String × String × String)
  nextRowid : Nat
deriving DecidableEq

def emptyRag : RagDB := ⟨[], [], 1⟩

/-- INSERT INTO doc: rejected (left unchanged) when the PRIMARY KEY
doc_id already exists; on success the doc_ai trigger inserts the
searchable projection into doc_fts. -/
def insertDoc (db : RagDB) (d : Doc) : RagDB :=
  if db.docRows.any (fun r => r.2.doc_id == d.doc_id) then db
  else
    { docRows := db.docRows ++ [(db.nextRowid, d)]
      ftsRows := db.ftsRows ++ [(db.nextRowid, d.title, d.ctx_hdr, d.body_text)]
      nextRowid := db.nextRowid + 1 }

/-- DELETE FROM doc WHERE rowid = rid; the doc_ad trigger removes the
matching doc_fts entry. -/
def deleteRow (db : RagDB) (rid : Nat) : RagDB :=
  { db with
      docRows := db.docRows.filter (fun r => r.1 != rid)
      ftsRows := db.ftsRows.filter (fun f => f.1 != rid) }

/-- UPDATE doc ... WHERE rowid = rid: rejected when the new doc_id would
collide with another row's PRIMARY KEY; on success the doc_au trigger
deletes the old doc_fts entry and inserts the refreshed projection. -/
def updateRow (db : RagDB) (rid : Nat) (d : Doc) : RagDB :=
  if db.docRows.any (fun r => r.1 != rid && r.2.doc_id == d.doc_id) then db
  else
    { db with
        docRows := db.docRows.map (fun r => if r.1 == rid then (r.1, d) else r)
        ftsRows := db.ftsRows.map
          (fun f => if f.1 == rid then (f.1, d.title, d.ctx_hdr, d.body_text) else f) }

/-- Re-running schema.sql: doc is CREATE TABLE IF NOT EXISTS (rows kept),
while doc_fts and its triggers are dropped and recreated, so the FTS
index starts empty. -/
def applySchema (db : RagDB) : RagDB := { db with ftsRows := [] }

/-- doc_fts holds exactly one searchable row per doc row, with the same
rowid and identical (title, ctx_hdr, body_text). -/
def Synced (db : RagDB) : Prop := db.ftsRows = db.docRows.map projFts

lemma synced_insertDoc {db : RagDB} (h : Synced db) (d : Doc) :
    Synced (insertDoc db d) := by
  unfold insertDoc
  by_cases hc : db.docRows.any (fun r => r.2.doc_id == d.doc_id) = true
  · rw [if_pos hc]
    exact h
  · rw [if_neg hc]
    unfold Synced at h ⊢
    simp [h, projFts]

lemma synced_deleteRow {db : RagDB} (h : Synced db) (rid : Nat) :
    Synced (deleteRow db rid) := by
  unfold Synced at h ⊢
  unfold deleteRow
  simp only [h, List.filter_map]
  rfl

lemma synced_updateRow {db : RagDB} (h : Synced db) (rid : Nat) (d : Doc) :
    Synced (updateRow db rid d) := by
  unfold updateRow
  by_cases hc : db.docRows.any (fun r => r.1 != rid && r.2.doc_id == d.doc_id) = true
  · rw [if_pos hc]
    exact h
  · rw [if_neg hc]
    unfold Synced at h ⊢
    simp only [h, List.map_map]
    apply List.map_congr_left
    intro r _
    by_cases hr : r.1 = rid
    · simp [projFts, hr]
    · simp [projFts, hr]

/-- C5: after any insert, update, or delete on the doc table, the
triggers leave doc_fts holding exactly one row per doc row with
identical searchable text (the projection invariant is preserved). -/
theorem fts_stays_synced (db : RagDB) (h : Synced db) :
    (∀ d : Doc, Synced (insertDoc db d)) ∧
    (∀ rid : Nat, Synced (deleteRow db rid)) ∧
    (∀ (rid : Nat) (d : Doc), Synced (updateRow db rid d)) :=
  ⟨fun d => synced_insertDoc h d,
   fun rid => synced_deleteRow h rid,
   fun rid d => synced_updateRow h rid d⟩

/-- A sample doc row for concrete runs. -/
def sampleDoc : Doc :=
  { doc_id := "14b92d4a/mml_2.block_has_port/block/425"
    model_id := "14b92d4a"
    vendor := "sparx"
    version := "17.1"
    mml := some 2
    probe_id := "mml_2.block_has_port"
    doc_type := "block"
    subject_type := "block"
    subject_id := "425"
    title := "mml_2.block_has_port"
    ctx_hdr := "Block 425"
    body_text := "block has port evidence"
    json_metadata := "{}"
    ts_ms := some 1700000000000 }

/-- A second sample doc row (a summary document). -/
def sampleSummary : Doc :=
  { doc_id := "14b92d4a/summary/model/14b92d4a"
    model_id := "14b92d4a"
    vendor := "sparx"
    version := "17.1"
    mml := none
    probe_id := "summary"
    doc_type := "summary"
    subject_type := "model"
    subject_id := "14b92d4a"
    title := "Model summary"
    ctx_hdr := "Model 14b92d4a"
    body_text := "overall maturity summary"
    json_metadata := "{}"
    ts_ms := some 1700000000500 }

/-- Concrete run of the sync invariant: inserting, updating, and deleting
on a one-row database each leave doc_fts equal to the doc projection. -/
theorem fts_stays_synced_witness :
    Synced (insertDoc (insertDoc emptyRag sampleDoc) sampleSummary) ∧
    Synced (deleteRow (insertDoc emptyRag sampleDoc) 1) ∧
    Synced (updateRow (insertDoc emptyRag sampleDoc) 1 sampleSummary) :=
  ⟨(fts_stays_synced (insertDoc emptyRag sampleDoc)
      ((fts_stays_synced emptyRag rfl).1 sampleDoc)).1 sampleSummary,
   (fts_stays_synced (insertDoc emptyRag sampleDoc)
      ((fts_stays_synced emptyRag rfl).1 sampleDoc)).2.1 1,
   (fts_stays_synced (insertDoc emptyRag sampleDoc)
      ((fts_stays_synced emptyRag rfl).1 sampleDoc)).2.2 1 sampleSummary⟩

/-- Loading an evidence set into a fresh rag.sqlite is a fold of inserts. -/
def loadDocs (ds : List Doc) : RagDB := ds.foldl insertDoc emptyRag

/-- Distinct rows never share a doc_id. -/
def DocIdDistinct (rows : List (Nat × Doc)) : Prop :=
  rows.Pairwise (fun a b => a.2.doc_id ≠ b.2.doc_id)

lemma docIdDistinct_insertDoc {db : RagDB} (h : DocIdDistinct db.docRows)
    (d : Doc) : DocIdDistinct (insertDoc db d).docRows := by
  unfold insertDoc
  by_cases hc : db.docRows.any (fun r => r.2.doc_id == d.doc_id) = true
  · rw [if_pos hc]
    exact h
  · rw [if_neg hc]
    unfold DocIdDistinct
    rw [List.pairwise_append]
    refine ⟨h, List.pairwise_singleton _ _, ?_⟩
    intro a ha b hb
    have hb' : b = (db.nextRowid, d) := by simpa using hb
    subst hb'
    intro heq
    apply hc
    rw [List.any_eq_true]
    exact ⟨a, ha, by simp [heq]⟩

lemma docIdDistinct_foldl (ds : List Doc) (db : RagDB)
    (h : DocIdDistinct db.docRows) :
    DocIdDistinct (ds.foldl insertDoc db).docRows := by
  induction ds generalizing db with
  | nil => exact h
  | cons d ds ih =>
    exact ih (insertDoc db d) (docIdDistinct_insertDoc h d)

/-- C3: the doc_id PRIMARY KEY makes evidence document identifiers unique —
for any ingestion run (any sequence of evidence inserts into a fresh
index), no two distinct rows of the doc table share a doc_id. -/
theorem doc_id_unique (ds : List Doc) : DocIdDistinct (loadDocs ds).docRows :=
  docIdDistinct_foldl ds emptyRag List.Pairwise.nil

/-- Concrete run: loading two evidence documents (and a duplicate of the
first) yields a table with pairwise-distinct doc_ids. -/
theorem doc_id_unique_witness :
    DocIdDistinct (loadDocs [sampleDoc, sampleSummary, sampleDoc]).docRows :=
  doc_id_unique [sampleDoc, sampleSummary, sampleDoc]

/-! ## FTS tokenization (unicode61 with separators _ . / -) and the
convenience / fallback views of schema.sql. -/

/-- A character ends a token: the explicit separators of the tokenize
directive (underscore, dot, slash, hyphen) plus every character that is
not alphanumeric (unicode61 default). -/
def isSepChar (c : Char) : Bool :=
  c == '_' || c == '.' || c == '/' || c == '-' || !c.isAlphanum

/-- Tokens of a character list: maximal runs of token characters. -/
def tokens (s : List Char) : List (List Char) :=
  (s.splitOnP isSepChar).filter (fun t => !t.isEmpty)

/-- Tokens of an indexed text column. -/
def tokenize (s : String) : List (List Char) := tokens s.data

/-- FTS5 MATCH for a single-term query against one doc_fts row
(title, ctx_hdr, body_text). -/
def ftsMatch (w : List Char) (title ctx body : String) : Bool :=
  (tokenize title).contains w || (tokenize ctx).contains w ||
    (tokenize body).contains w

lemma modifyHead_append_of_ne_nil {α : Type} (f : α → α) {l₁ : List α}
    (l₂ : List α) (h : l₁ ≠ []) :
    (l₁ ++ l₂).modifyHead f = l₁.modifyHead f ++ l₂ := by
  cases l₁ with
  | nil => exact absurd rfl h
  | cons a l => rfl

lemma splitOnP_sep {α : Type} (p : α → Bool) (sep : α) (hsep : p sep = true)
    (xs ys : List α) :
    (xs ++ sep :: ys).splitOnP p = xs.splitOnP p ++ ys.splitOnP p := by
  induction xs with
  | nil => simp [List.splitOnP_cons, hsep]
  | cons x xs ih =>
    by_cases hx : p x
    · simp [List.splitOnP_cons, hx, ih]
    · simp only [List.cons_append, List.splitOnP_cons, hx, Bool.false_eq_true,
        if_false, ih]
      rw [modifyHead_append_of_ne_nil _ _ (List.splitOnP_ne_nil _ _)]

lemma tokens_sep (sep : Char) (hsep : isSepChar sep = true) (xs ys : List Char) :
    tokens (xs ++ sep :: ys) = tokens xs ++ tokens ys := by
  unfold tokens
  rw [splitOnP_sep _ sep hsep, List.filter_append]

/-- The text to the left of an identifier occurrence is empty or ends at a
separator character. -/
def LeftBound (u : List Char) : Prop :=
  u = [] ∨ ∃ u' c, u = u' ++ [c] ∧ isSepChar c = true

/-- The text to the right of an identifier occurrence is empty or starts
with a separator character. -/
def RightBound (v : List Char) : Prop :=
  v = [] ∨ ∃ c v', v = c :: v' ∧ isSepChar c = true

lemma tokens_delimited {u t v : List Char} (hu : LeftBound u) (hv : RightBound v)
    {w : List Char} (hw : w ∈ tokens t) : w ∈ tokens (u ++ t ++ v) := by
  have hR : w ∈ tokens (t ++ v) := by
    rcases hv with rfl | ⟨c, v', rfl, hc⟩
    · simpa using hw
    · rw [tokens_sep c hc]
      exact List.mem_append_left _ hw
  rcases hu with rfl | ⟨u', c, rfl, hc⟩
  · simpa using hR
  · have hassoc : u' ++ [c] ++ t ++ v = u' ++ c :: (t ++ v) := by simp
    rw [hassoc, tokens_sep c hc]
    exact List.mem_append_right _ hR

/-- Row shape of the v_search view: doc_id, title, body, bm25 score. -/
structure SearchRow where
  doc_id : String
  title : String
  body : String
  score : Option Int
deriving DecidableEq

/-- v_search: doc joined with doc_fts on rowid, restricted by MATCH, with
a bm25 relevance score; the bm25 scoring function itself is a parameter
of the embedding (it scores the matched searchable text). -/
def v_search (bm : List Char → String × String × String → Int) (q : List Char)
    (db : RagDB) : List SearchRow :=
  db.docRows.flatMap (fun r =>
    (db.ftsRows.filter
        (fun f => f.1 == r.1 && ftsMatch q f.2.1 f.2.2.1 f.2.2.2)).map
      (fun f => ⟨r.2.doc_id, r.2.title, r.2.body_text, some (bm q f.2)⟩))

/-- Row shape of the fallback views: score is NULL, created_at is
COALESCE(ts_ms, rowid). -/
structure FallbackRow where
  doc_id : String
  title : String
  body : String
  score : Option Int
  created_at : Int
deriving DecidableEq

def createdAt (r : Nat × Doc) : Int :=
  match r.2.ts_ms with
  | some t => t
  | none => (r.1 : Int)

def fallbackRowOf (r : Nat × Doc) : FallbackRow :=
  ⟨r.2.doc_id, r.2.title, r.2.body_text, none, createdAt r⟩

/-- Insertion step of an order-by sort. -/
def insOrd {α : Type} (le : α → α → Bool) (a : α) : List α → List α
  | [] => [a]
  | b :: bs => if le a b then a :: b :: bs else b :: insOrd le a bs

/-- ORDER BY as an insertion sort under a boolean comparison. -/
def sortOrd {α : Type} (le : α → α → Bool) (l : List α) : List α :=
  l.foldr (insOrd le) []

/-- DESC comparison on created_at (most recent first). -/
def recentLe (a b : FallbackRow) : Bool := b.created_at ≤ a.created_at

/-- v_summaries: summary documents only, score NULL, most recent first. -/
def v_summaries (db : RagDB) : List FallbackRow :=
  sortOrd recentLe
    ((db.docRows.filter (fun r => r.2.doc_type == "summary")).map fallbackRowOf)

/-- v_recent: all documents, score NULL, most recent first. -/
def v_recent (db : RagDB) : List FallbackRow :=
  sortOrd recentLe (db.docRows.map fallbackRowOf)

lemma mem_insOrd {α : Type} {le : α → α → Bool} {a b : α} {l : List α} :
    b ∈ insOrd le a l ↔ b = a ∨ b ∈ l := by
  induction l with
  | nil => simp [insOrd]
  | cons c cs ih =>
    by_cases h : le a c
    · simp [insOrd, h]
    · simp only [insOrd, h, Bool.false_eq_true, if_false, List.mem_cons, ih]
      tauto

lemma mem_sortOrd {α : Type} {le : α → α → Bool} {a : α} {l : List α} :
    a ∈ sortOrd le l ↔ a ∈ l := by
  induction l with
  | nil => simp [sortOrd]
  | cons b bs ih =>
    simp only [sortOrd, List.foldr_cons] at ih ⊢
    rw [mem_insOrd, ih, List.mem_cons]

lemma pairwise_insOrd {α : Type} (le : α → α → Bool)
    (htot : ∀ x y, le x y = false → le y x = true)
    (htrans : ∀ x y z, le x y = true → le y z = true → le x z = true)
    (a : α) (l : List α) (h : l.Pairwise (fun x y => le x y = true)) :
    (insOrd le a l).Pairwise (fun x y => le x y = true) := by
  induction l with
  | nil => simp [insOrd]
  | cons b bs ih =>
    rcases List.pairwise_cons.mp h with ⟨hb, hbs⟩
    by_cases hab : le a b
    · simp only [insOrd, hab, if_true]
      refine List.pairwise_cons.mpr ⟨?_, h⟩
      intro x hx
      rcases List.mem_cons.mp hx with rfl | hx
      · exact hab
      · exact htrans a b x hab (hb x hx)
    · simp only [insOrd, hab, Bool.false_eq_true, if_false]
      refine List.pairwise_cons.mpr ⟨?_, ih hbs⟩
      intro x hx
      rcases mem_insOrd.mp hx with heq | hx
      · rw [heq]
        exact htot a b (by simpa using hab)
      · exact hb x hx

lemma pairwise_sortOrd {α : Type} (le : α → α → Bool)
    (htot : ∀ x y, le x y = false → le y x = true)
    (htrans : ∀ x y z, le x y = true → le y z = true → le x z = true)
    (l : List α) : (sortOrd le l).Pairwise (fun x y => le x y = true) := by
  induction l with
  | nil => exact List.Pairwise.nil
  | cons a l ih => exact pairwise_insOrd le htot htrans a _ ih

lemma recentLe_total : ∀ x y, recentLe x y = false → recentLe y x = true := by
  intro x y h
  simp only [recentLe, decide_eq_false_iff_not, not_le] at h
  simp only [recentLe, decide_eq_true_eq]
  omega

lemma recentLe_trans :
    ∀ x y z, recentLe x y = true → recentLe y z = true → recentLe x z = true := by
  intro x y z hxy hyz
  simp only [recentLe, decide_eq_true_eq] at hxy hyz ⊢
  omega

/-- C7: scored retrieval is always distinguishable from fallback: every
v_search row carries a non-NULL bm25 score, every v_summaries and
v_recent row carries a NULL score, v_summaries only surfaces documents
of doc_type "summary", and both fallback views are ordered most recent
first on created_at. -/
theorem scored_vs_fallback :
    (∀ (bm : List Char → String × String × String → Int) (q : List Char)
        (db : RagDB) (row : SearchRow),
      row ∈ v_search bm q db → row.score ≠ none) ∧
    (∀ (db : RagDB) (row : FallbackRow), row ∈ v_summaries db → row.score = none) ∧
    (∀ (db : RagDB) (row : FallbackRow), row ∈ v_recent db → row.score = none) ∧
    (∀ (db : RagDB) (row : FallbackRow), row ∈ v_summaries db →
      ∃ r ∈ db.docRows, r.2.doc_type = "summary" ∧ row = fallbackRowOf r) ∧
    (∀ db : RagDB,
      (v_summaries db).Pairwise (fun a b => b.created_at ≤ a.created_at)) ∧
    (∀ db : RagDB,
      (v_recent db).Pairwise (fun a b => b.created_at ≤ a.created_at)) := by
  refine ⟨?_, ?_, ?_, ?_, ?_, ?_⟩
  · intro bm q db row hrow
    rcases List.mem_flatMap.mp hrow with ⟨r, _, hmem⟩
    rcases List.mem_map.mp hmem with ⟨f, _, rfl⟩
    simp
  · intro db row hrow
    rcases List.mem_map.mp (mem_sortOrd.mp hrow) with ⟨r, _, rfl⟩
    rfl
  · intro db row hrow
    rcases List.mem_map.mp (mem_sortOrd.mp hrow) with ⟨r, _, rfl⟩
    rfl
  · intro db row hrow
    rcases List.mem_map.mp (mem_sortOrd.mp hrow) with ⟨r, hr, rfl⟩
    rcases List.mem_filter.mp hr with ⟨hr', htype⟩
    exact ⟨r, hr', by simpa using htype, rfl⟩
  · intro db
    exact (pairwise_sortOrd recentLe recentLe_total recentLe_trans _).imp
      (fun h => by simpa [recentLe] using h)
  · intro db
    exact (pairwise_sortOrd recentLe recentLe_total recentLe_trans _).imp
      (fun h => by simpa [recentLe] using h)

/-- Concrete run: on a two-document database the summary fallback row has
a NULL score while a scored search row does not. -/
theorem scored_vs_fallback_witness :
    (∀ row ∈ v_search (fun _ _ => (-1 : Int)) "block".data
        (insertDoc (insertDoc emptyRag sampleDoc) sampleSummary),
      row.score ≠ none) ∧
    (∀ row ∈ v_summaries (insertDoc (insertDoc emptyRag sampleDoc) sampleSummary),
      row.score = none) :=
  ⟨fun row hrow => scored_vs_fallback.1 _ _ _ row hrow,
   fun row hrow => scored_vs_fallback.2.1 _ row hrow⟩

/-- C6: for every indexed document whose title, context header, or body
contains an identifier-style token delimited by separators (or text
boundaries), a full-text search for any constituent word of that
identifier retrieves the document. -/
theorem tokenizer_round_trip
    (bm : List Char → String × String × String → Int) (db : RagDB)
    (r : Nat × Doc) (w ident u v : List Char)
    (hsync : Synced db) (hr : r ∈ db.docRows)
    (hfield : r.2.title.data = u ++ ident ++ v ∨
      r.2.ctx_hdr.data = u ++ ident ++ v ∨
      r.2.body_text.data = u ++ ident ++ v)
    (hu : LeftBound u) (hv : RightBound v) (hw : w ∈ tokens ident) :
    ∃ row ∈ v_search bm w db, row.doc_id = r.2.doc_id ∧
      row.title = r.2.title ∧ row.body = r.2.body_text := by
  have hmemT : w ∈ tokens (u ++ ident ++ v) := tokens_delimited hu hv hw
  have hmemT2 : w ∈ tokens (u ++ (ident ++ v)) := by
    rw [← List.append_assoc]
    exact hmemT
  have hmatch : ftsMatch w r.2.title r.2.ctx_hdr r.2.body_text = true := by
    unfold ftsMatch tokenize
    rcases hfield with h | h | h <;> rw [h] <;> simp [hmemT, hmemT2]
  refine ⟨⟨r.2.doc_id, r.2.title, r.2.body_text, some (bm w (projFts r).2)⟩,
    ?_, rfl, rfl, rfl⟩
  apply List.mem_flatMap.mpr
  refine ⟨r, hr, ?_⟩
  apply List.mem_map.mpr
  refine ⟨projFts r, ?_, rfl⟩
  apply List.mem_filter.mpr
  constructor
  · rw [hsync]
    exact List.mem_map_of_mem projFts hr
  · simp [projFts, hmatch]

/-- Concrete round-trip: a document titled mml_2.block_has_port is
retrieved by searching the constituent word "block". -/
theorem tokenizer_round_trip_witness :
    ∃ row ∈ v_search (fun _ _ => (-1 : Int)) "block".data (loadDocs [sampleDoc]),
      row.doc_id = sampleDoc.doc_id ∧ row.title = sampleDoc.title ∧
      row.body = sampleDoc.body_text :=
  tokenizer_round_trip (fun _ _ => (-1 : Int)) (loadDocs [sampleDoc])
    (1, sampleDoc) "block".data "mml_2.block_has_port".data [] []
    rfl (by decide) (Or.inl (by decide)) (Or.inl rfl) (Or.inl rfl) (by decide)

/-! ## Index rebuild (C4). The rebuild re-applies schema.sql and then
replaces the model's rows, delete-then-insert, as the spec requires. -/

/-- The doc table contents, without rowids. -/
def docsOf (db : RagDB) : List Doc := db.docRows.map (fun r => r.2)

/-- Clearing a model's rows during a rebuild: re-apply schema.sql (doc_fts
and the triggers are dropped and recreated empty) and delete every
existing doc row (each delete firing the doc_ad trigger). -/
def clearRows (db : RagDB) : RagDB :=
  ((applySchema db).docRows.map (fun r => r.1)).foldl deleteRow (applySchema db)

/-- Modelled from the spec: the Retrieval Index Builder's rebuild for one
model (builder source is not in the repository snapshot; the schema
re-application and trigger behavior are embedded from schema.sql) —
old entries are fully superseded by delete-then-insert, never appended
alongside. -/
def buildIndex (docs : List Doc) (db : RagDB) : RagDB :=
  docs.foldl insertDoc (clearRows db)

lemma foldl_deleteRow_nil (rids : List Nat) (db : RagDB)
    (hdoc : ∀ r ∈ db.docRows, r.1 ∈ rids)
    (hfts : ∀ f ∈ db.ftsRows, f.1 ∈ rids) :
    (rids.foldl deleteRow db).docRows = [] ∧
      (rids.foldl deleteRow db).ftsRows = [] := by
  induction rids generalizing db with
  | nil =>
    constructor
    · exact List.eq_nil_iff_forall_not_mem.mpr
        (fun r hr => by simpa using hdoc r hr)
    · exact List.eq_nil_iff_forall_not_mem.mpr
        (fun f hf => by simpa using hfts f hf)
  | cons rid rest ih =>
    rw [List.foldl_cons]
    apply ih (deleteRow db rid)
    · intro r hr
      rcases List.mem_filter.mp hr with ⟨hr', hne⟩
      have := hdoc r hr'
      rcases List.mem_cons.mp this with heq | h
      · simp [heq] at hne
      · exact h
    · intro f hf
      rcases List.mem_filter.mp hf with ⟨hf', hne⟩
      have := hfts f hf'
      rcases List.mem_cons.mp this with heq | h
      · simp [heq] at hne
      · exact h

lemma clearRows_spec (db : RagDB) :
    (clearRows db).docRows = [] ∧ (clearRows db).ftsRows = [] := by
  apply foldl_deleteRow_nil
  · intro r hr
    exact List.mem_map_of_mem (fun r => r.1) hr
  · intro f hf
    simp [applySchema] at hf

lemma docsOf_insertDoc (db : RagDB) (d : Doc) :
    docsOf (insertDoc db d) =
      if (docsOf db).any (fun x => x.doc_id == d.doc_id) then docsOf db
      else docsOf db ++ [d] := by
  unfold insertDoc docsOf
  have hany : (db.docRows.map (fun r => r.2)).any (fun x => x.doc_id == d.doc_id)
      = db.docRows.any (fun r => r.2.doc_id == d.doc_id) := by
    induction db.docRows with
    | nil => rfl
    | cons r l ih => simp [ih]
  by_cases hc : db.docRows.any (fun r => r.2.doc_id == d.doc_id) = true
  · rw [if_pos hc, if_pos (by rw [hany]; exact hc)]
  · rw [if_neg hc, if_neg (by rw [hany]; exact hc)]
    simp

/-- The evidence documents actually stored by a run of inserts, in order,
first occurrence of each doc_id winning. -/
def dedupDocs (docs : List Doc) : List Doc :=
  docs.foldl
    (fun A d => if A.any (fun x => x.doc_id == d.doc_id) then A else A ++ [d]) []

lemma docsOf_foldl_insertDoc (docs : List Doc) (db : RagDB) :
    docsOf (docs.foldl insertDoc db) =
      docs.foldl
        (fun A d => if A.any (fun x => x.doc_id == d.doc_id) then A else A ++ [d])
        (docsOf db) := by
  induction docs generalizing db with
  | nil => rfl
  | cons d docs ih =>
    rw [List.foldl_cons, List.foldl_cons, ih, docsOf_insertDoc]

lemma docsOf_buildIndex (docs : List Doc) (db : RagDB) :
    docsOf (buildIndex docs db) = dedupDocs docs := by
  unfold buildIndex dedupDocs
  rw [docsOf_foldl_insertDoc]
  have h : docsOf (clearRows db) = [] := by
    unfold docsOf
    rw [(clearRows_spec db).1]
    rfl
  rw [h]

lemma synced_foldl_insertDoc {db : RagDB} (docs : List Doc) (h : Synced db) :
    Synced (docs.foldl insertDoc db) := by
  induction docs generalizing db with
  | nil => exact h
  | cons d docs ih => exact ih (synced_insertDoc h d)

lemma synced_buildIndex (docs : List Doc) (db : RagDB) :
    Synced (buildIndex docs db) := by
  unfold buildIndex
  apply synced_foldl_insertDoc
  unfold Synced
  rw [(clearRows_spec db).1, (clearRows_spec db).2]
  rfl

/-- Rowids of the doc table are all below the fresh-rowid counter and
pairwise distinct. -/
def RowidOk (db : RagDB) : Prop :=
  (∀ r ∈ db.docRows, r.1 < db.nextRowid) ∧
    (db.docRows.map (fun r => r.1)).Nodup

lemma rowidOk_insertDoc {db : RagDB} (h : RowidOk db) (d : Doc) :
    RowidOk (insertDoc db d) := by
  unfold insertDoc
  by_cases hc : db.docRows.any (fun r => r.2.doc_id == d.doc_id) = true
  · rw [if_pos hc]
    exact h
  · rw [if_neg hc]
    constructor
    · intro r hr
      rcases List.mem_append.mp hr with h1 | h1
      · exact Nat.lt_succ_of_lt (h.1 r h1)
      · have : r = (db.nextRowid, d) := by simpa using h1
        rw [this]
        exact Nat.lt_succ_self _
    · simp only [List.map_append, List.map_cons, List.map_nil]
      rw [List.nodup_append]
      refine ⟨h.2, List.nodup_singleton _, ?_⟩
      intro a ha hb
      have hb' : a = db.nextRowid := by simpa using hb
      rcases List.mem_map.mp ha with ⟨r, hr, hra⟩
      have := h.1 r hr
      omega

lemma rowidOk_foldl_insertDoc {db : RagDB} (docs : List Doc) (h : RowidOk db) :
    RowidOk (docs.foldl insertDoc db) := by
  induction docs generalizing db with
  | nil => exact h
  | cons d docs ih => exact ih (rowidOk_insertDoc h d)

lemma rowidOk_buildIndex (docs : List Doc) (db : RagDB) :
    RowidOk (buildIndex docs db) := by
  unfold buildIndex
  apply rowidOk_foldl_insertDoc
  constructor
  · intro r hr
    rw [(clearRows_spec db).1] at hr
    cases hr
  · rw [(clearRows_spec db).1]
    exact List.Pairwise.nil

lemma filter_projFts_eq {l : List (Nat × Doc)} {r : Nat × Doc}
    (m : Nat × String × String × String → Bool)
    (hn : (l.map (fun x => x.1)).Nodup) (hr : r ∈ l) :
    (l.map projFts).filter (fun f => f.1 == r.1 && m f) =
      if m (projFts r) then [projFts r] else [] := by
  induction l with
  | nil => cases hr
  | cons a l ih =>
    simp only [List.map_cons, List.nodup_cons] at hn
    rcases List.mem_cons.mp hr with heq | hmem
    · subst heq
      rw [List.map_cons, List.filter_cons]
      have htail : (l.map projFts).filter (fun f => f.1 == r.1 && m f) = [] := by
        apply List.filter_eq_nil_iff.mpr
        intro f hf
        rcases List.mem_map.mp hf with ⟨b, hb, rfl⟩
        have hne : b.1 ≠ r.1 := by
          intro hcon
          exact hn.1 (List.mem_map.mpr ⟨b, hb, hcon⟩)
        simp [projFts, hne]
      have hcond : ((projFts r).1 == r.1 && m (projFts r)) = m (projFts r) := by
        simp [projFts]
      rw [hcond, htail]
    · rw [List.map_cons, List.filter_cons]
      have hne : a.1 ≠ r.1 := by
        intro hcon
        exact hn.1 (List.mem_map.mpr ⟨r, hmem, hcon.symm⟩)
      have hhead : ((projFts a).1 == r.1 && m (projFts a)) = false := by
        simp [projFts, hne]
      rw [hhead]
      simp only [Bool.false_eq_true, if_false]
      exact ih hn.2 hmem

lemma flatMap_congr {α β : Type} (l : List α) (f g : α → List β)
    (h : ∀ a ∈ l, f a = g a) : l.flatMap f = l.flatMap g := by
  induction l with
  | nil => rfl
  | cons a l ih =>
    rw [List.flatMap_cons, List.flatMap_cons, h a (List.mem_cons_self a l),
      ih (fun b hb => h b (List.mem_cons_of_mem a hb))]

lemma flatMap_if_singleton {α β : Type} (l : List α) (p : α → Bool) (g : α → β) :
    l.flatMap (fun a => if p a then [g a] else []) = (l.filter p).map g := by
  induction l with
  | nil => rfl
  | cons a l ih =>
    rw [List.flatMap_cons, List.filter_cons]
    by_cases hp : p a = true
    · rw [if_pos hp, if_pos hp, List.map_cons, ih]
      rfl
    · rw [if_neg hp, if_neg hp, ih]
      rfl

lemma v_search_docsOf (bm : List Char → String × String × String → Int)
    (q : List Char) (db : RagDB) (hs : Synced db)
    (hn : (db.docRows.map (fun r => r.1)).Nodup) :
    v_search bm q db =
      ((docsOf db).filter
          (fun d => ftsMatch q d.title d.ctx_hdr d.body_text)).map
        (fun d => ⟨d.doc_id, d.title, d.body_text,
          some (bm q (d.title, d.ctx_hdr, d.body_text))⟩) := by
  unfold v_search
  rw [hs]
  rw [flatMap_congr _ _
      (fun r => if ftsMatch q r.2.title r.2.ctx_hdr r.2.body_text
        then [⟨r.2.doc_id, r.2.title, r.2.body_text,
          some (bm q (r.2.title, r.2.ctx_hdr, r.2.body_text))⟩] else [])
      ?_]
  · rw [flatMap_if_singleton]
    unfold docsOf
    rw [List.filter_map, List.map_map]
    rfl
  · intro r hr
    rw [filter_projFts_eq
        (fun f => ftsMatch q f.2.1 f.2.2.1 f.2.2.2) hn hr]
    simp only [projFts]
    by_cases hm : ftsMatch q r.2.title r.2.ctx_hdr r.2.body_text = true
    · rw [if_pos hm, if_pos hm]
      rfl
    · rw [if_neg hm, if_neg hm]
      rfl

/-- C4: rebuilding the retrieval index twice over an unchanged evidence
set equals a single rebuild: the stored document set and every full-text
search result coincide, the rebuilt index is in sync (no stale doc_fts
row survives), and no doc_id is duplicated. -/
theorem index_rebuild_idempotent (docs : List Doc) (db : RagDB) :
    docsOf (buildIndex docs (buildIndex docs db)) = docsOf (buildIndex docs db) ∧
    (∀ (bm : List Char → String × String × String → Int) (q : List Char),
      v_search bm q (buildIndex docs (buildIndex docs db)) =
        v_search bm q (buildIndex docs db)) ∧
    Synced (buildIndex docs db) ∧
    DocIdDistinct (buildIndex docs db).docRows := by
  refine ⟨?_, ?_, synced_buildIndex docs db, ?_⟩
  · rw [docsOf_buildIndex, docsOf_buildIndex]
  · intro bm q
    rw [v_search_docsOf bm q _ (synced_buildIndex docs _)
        (rowidOk_buildIndex docs _).2,
      v_search_docsOf bm q _ (synced_buildIndex docs db)
        (rowidOk_buildIndex docs db).2,
      docsOf_buildIndex, docsOf_buildIndex]
  · unfold buildIndex
    apply docIdDistinct_foldl
    rw [(clearRows_spec db).1]
    exact List.Pairwise.nil

/-- Concrete rebuild: building twice from the two-document evidence set
leaves the document list and a "block" search unchanged. -/
theorem index_rebuild_idempotent_witness :
    docsOf (buildIndex [sampleDoc, sampleSummary]
        (buildIndex [sampleDoc, sampleSummary] emptyRag)) =
      docsOf (buildIndex [sampleDoc, sampleSummary] emptyRag) ∧
    v_search (fun _ _ => (-1 : Int)) "block".data
        (buildIndex [sampleDoc, sampleSummary]
          (buildIndex [sampleDoc, sampleSummary] emptyRag)) =
      v_search (fun _ _ => (-1 : Int)) "block".data
        (buildIndex [sampleDoc, sampleSummary] emptyRag) :=
  ⟨(index_rebuild_idempotent [sampleDoc, sampleSummary] emptyRag).1,
   (index_rebuild_idempotent [sampleDoc, sampleSummary] emptyRag).2.1
     (fun _ _ => (-1 : Int)) "block".data⟩

/-! ## Canonical tempdb schema (Sparx-style t_* tables).
Embeds the core entity tables of app/tempdb/schema.sql: each has a TEXT
PRIMARY KEY and a nullable guid column declared TEXT UNIQUE; SQLite UNIQUE
permits any number of NULLs but rejects a duplicated non-NULL value. -/

structure TPackage where
  package_id : String
  parent_id : Option String
  name : Option String
  stereotype : Option String
  scope : Option String
  version : Option String
  guid : Option String
deriving DecidableEq

structure TObject where
  object_id : String
  package_id : Option String
  name : Option String
  type : Option String
  stereotype : Option String
  status : Option String
  author : Option String
  complexity : Option String
  guid : Option String
deriving DecidableEq

structure TAttribute where
  attribute_id : String
  object_id : Option String
  name : Option String
  type : Option String
  stereotype : Option String
  lower_bound : Option String
  upper_bound : Option String
  guid : Option String
deriving DecidableEq

structure TOperation where
  operation_id : String
  object_id : Option String
  name : Option String
  return_type : Option String
  stereotype : Option String
  scope : Option String
  guid : Option String
deriving DecidableEq

structure TConnector where
  connector_id : String
  name : Option String
  type : Option String
  stereotype : Option String
  src_object_id : Option String
  dst_object_id : Option String
  direction : Option String
  guid : Option String
deriving DecidableEq

structure TDiagram where
  diagram_id : String
  package_id : Option String
  parent_id : Option String
  name : Option String
  type : Option String
  version : Option String
  guid : Option String
deriving DecidableEq

/-- INSERT under the table's constraints: the PRIMARY KEY must be fresh,
and a non-NULL guid must not duplicate an existing non-NULL guid (a NULL
guid never conflicts); a violating row is not stored. -/
def insertUnique {α : Type} (pk : α → String) (guidOf : α → Option String)
    (t : List α) (r : α) : List α :=
  if t.any (fun x => pk x == pk r) then t
  else
    match guidOf r with
    | none => t ++ [r]
    | some g => if t.any (fun x => guidOf x == some g) then t else t ++ [r]

/-- Loading one table from a normalized row stream. -/
def loadTable {α : Type} (pk : α → String) (guidOf : α → Option String)
    (rows : List α) : List α :=
  rows.foldl (insertUnique pk guidOf) []

/-- No two distinct rows carry the same non-NULL guid. -/
def GuidDistinct {α : Type} (guidOf : α → Option String) (t : List α) : Prop :=
  t.Pairwise (fun a b => ∀ g, guidOf a = some g → guidOf b ≠ some g)

lemma guidDistinct_insertUnique {α : Type} (pk : α → String)
    (guidOf : α → Option String) {t : List α} (h : GuidDistinct guidOf t)
    (r : α) : GuidDistinct guidOf (insertUnique pk guidOf t r) := by
  unfold insertUnique
  by_cases hpk : t.any (fun x => pk x == pk r) = true
  · rw [if_pos hpk]
    exact h
  · rw [if_neg hpk]
    cases hg : guidOf r with
    | none =>
      unfold GuidDistinct
      rw [List.pairwise_append]
      refine ⟨h, List.pairwise_singleton _ _, ?_⟩
      intro a ha b hb
      have hb' : b = r := by simpa using hb
      subst hb'
      intro g _ hcon
      rw [hg] at hcon
      cases hcon
    | some g0 =>
      show GuidDistinct guidOf
        (if t.any (fun x => guidOf x == some g0) then t else t ++ [r])
      by_cases hdup : t.any (fun x => guidOf x == some g0) = true
      · rw [if_pos hdup]
        exact h
      · rw [if_neg hdup]
        unfold GuidDistinct
        rw [List.pairwise_append]
        refine ⟨h, List.pairwise_singleton _ _, ?_⟩
        intro a ha b hb
        have hb' : b = r := by simpa using hb
        subst hb'
        intro g hga hcon
        rw [hg] at hcon
        have hgg : g = g0 := by
          injection hcon with hval
          exact hval.symm
        apply hdup
        rw [List.any_eq_true]
        refine ⟨a, ha, ?_⟩
        rw [hga, hgg]
        simp

lemma guidDistinct_loadTable {α : Type} (pk : α → String)
    (guidOf : α → Option String) (rows : List α) :
    GuidDistinct guidOf (loadTable pk guidOf rows) := by
  unfold loadTable
  have hgen : ∀ (rows : List α) (t : List α), GuidDistinct guidOf t →
      GuidDistinct guidOf (rows.foldl (insertUnique pk guidOf) t) := by
    intro rows
    induction rows with
    | nil => intro t ht; exact ht
    | cons r rows ih =>
      intro t ht
      exact ih _ (guidDistinct_insertUnique pk guidOf ht r)
  exact hgen rows [] List.Pairwise.nil

/-- C8: in every core entity table of the canonical store (packages,
objects, attributes, operations, connectors, diagrams), any two distinct
loaded rows that both carry a non-NULL guid have different guids, while
rows with a NULL guid are unrestricted. -/
theorem guid_unique_when_present :
    (∀ rows : List TPackage,
      GuidDistinct TPackage.guid (loadTable TPackage.package_id TPackage.guid rows)) ∧
    (∀ rows : List TObject,
      GuidDistinct TObject.guid (loadTable TObject.object_id TObject.guid rows)) ∧
    (∀ rows : List TAttribute,
      GuidDistinct TAttribute.guid (loadTable TAttribute.attribute_id TAttribute.guid rows)) ∧
    (∀ rows : List TOperation,
      GuidDistinct TOperation.guid (loadTable TOperation.operation_id TOperation.guid rows)) ∧
    (∀ rows : List TConnector,
      GuidDistinct TConnector.guid (loadTable TConnector.connector_id TConnector.guid rows)) ∧
    (∀ rows : List TDiagram,
      GuidDistinct TDiagram.guid (loadTable TDiagram.diagram_id TDiagram.guid rows)) :=
  ⟨fun rows => guidDistinct_loadTable _ _ rows,
   fun rows => guidDistinct_loadTable _ _ rows,
   fun rows => guidDistinct_loadTable _ _ rows,
   fun rows => guidDistinct_loadTable _ _ rows,
   fun rows => guidDistinct_loadTable _ _ rows,
   fun rows => guidDistinct_loadTable _ _ rows⟩

/-- Concrete run: two objects with NULL guids plus one with a guid, and a
connector pair, load into guid-distinct tables. -/
theorem guid_unique_when_present_witness :
    GuidDistinct TObject.guid (loadTable TObject.object_id TObject.guid
      [⟨"1", none, some "A", some "Block", none, none, none, none, none⟩,
       ⟨"2", none, some "B", some "Block", none, none, none, none, none⟩,
       ⟨"3", none, some "C", some "Block", none, none, none, none,
         some "{AAA}"⟩]) ∧
    GuidDistinct TConnector.guid (loadTable TConnector.connector_id TConnector.guid
      [⟨"c1", none, some "Association", none, some "1", some "2", none, some "{G1}"⟩,
       ⟨"c2", none, some "Satisfy", none, some "2", some "3", none, some "{G1}"⟩]) :=
  ⟨guid_unique_when_present.2.1 _, guid_unique_when_present.2.2.2.2.1 _⟩

/-! ## Frontend upload-service job polling.
Embeds pollJobStatus of src/frontend/src/app/services/upload-service.ts:
up to maxAttempts = 120 one-second GETs of /v1/jobs/{id}; succeeded
resolves, failed throws job.message || 'Analysis failed', a 404 throws
'Job not found', any other axios error is rethrown, and exhausting the
attempts throws the timeout error. -/

inductive JobState
  | queued
  | running
  | succeeded
  | failed
deriving DecidableEq

structure JobStatus where
  job_id : String
  model_id : String
  status : JobState
  progress : Nat
  message : Option String
deriving DecidableEq

/-- One poll's outcome at the HTTP boundary. -/
inductive PollResponse
  | ok (job : JobStatus)
  | http404
  | httpError (msg : String)
deriving DecidableEq

/-- The thrown text for a failed job: job.message || 'Analysis failed'
(JS treats undefined and the empty string as falsy). -/
def failMessage (job : JobStatus) : String :=
  match job.message with
  | some m => if m = "" then "Analysis failed" else m
  | none => "Analysis failed"

def maxAttempts : Nat := 120

/-- The polling loop; rs gives the response of the k-th poll. -/
def pollGo (rs : Nat → PollResponse) : Nat → Nat → Except String JobStatus
  | 0, _ => .error "Analysis timeout - job did not complete in time"
  | fuel + 1, i =>
    match rs i with
    | .http404 => .error "Job not found"
    | .httpError m => .error m
    | .ok job =>
      if job.status = .succeeded then .ok job
      else if job.status = .failed then .error (failMessage job)
      else pollGo rs fuel (i + 1)

def pollJobStatus (rs : Nat → PollResponse) : Except String JobStatus :=
  pollGo rs maxAttempts 0

/-- A poll outcome on which the loop keeps waiting. -/
def Continuing (r : PollResponse) : Prop :=
  ∃ j, r = .ok j ∧ (j.status = .queued ∨ j.status = .running)

lemma pollGo_succ (rs : Nat → PollResponse) (fuel i : Nat) :
    pollGo rs (fuel + 1) i =
      match rs i with
      | .http404 => .error "Job not found"
      | .httpError m => .error m
      | .ok job =>
        if job.status = .succeeded then .ok job
        else if job.status = .failed then .error (failMessage job)
        else pollGo rs fuel (i + 1) := rfl

lemma pollGo_ok {rs : Nat → PollResponse} :
    ∀ {fuel i : Nat} {job : JobStatus},
      pollGo rs fuel i = .ok job → job.status = .succeeded := by
  intro fuel
  induction fuel with
  | zero => intro i job h; cases h
  | succ fuel ih =>
    intro i job h
    rw [pollGo_succ] at h
    cases hr : rs i with
    | http404 =>
      simp only [hr] at h
      cases h
    | httpError m =>
      simp only [hr] at h
      cases h
    | ok j =>
      simp only [hr] at h
      by_cases hs : j.status = .succeeded
      · rw [if_pos hs] at h
        cases h
        exact hs
      · rw [if_neg hs] at h
        by_cases hf : j.status = .failed
        · rw [if_pos hf] at h
          cases h
        · rw [if_neg hf] at h
          exact ih h

lemma pollGo_skip {rs : Nat → PollResponse} :
    ∀ (n fuel i : Nat), (∀ k, k < n → Continuing (rs (i + k))) →
      pollGo rs (fuel + n) i = pollGo rs fuel (i + n) := by
  intro n
  induction n with
  | zero => intro fuel i _; rfl
  | succ n ih =>
    intro fuel i h
    rcases h 0 (Nat.succ_pos n) with ⟨j, hj, hstat⟩
    rw [Nat.add_zero] at hj
    have hs1 : j.status ≠ .succeeded := by
      rcases hstat with hs | hs <;> rw [hs] <;> intro hcon <;> cases hcon
    have hs2 : j.status ≠ .failed := by
      rcases hstat with hs | hs <;> rw [hs] <;> intro hcon <;> cases hcon
    have hstep : pollGo rs (fuel + (n + 1)) i = pollGo rs (fuel + n) (i + 1) := by
      show pollGo rs ((fuel + n) + 1) i = pollGo rs (fuel + n) (i + 1)
      rw [pollGo_succ]
      simp only [hj]
      rw [if_neg hs1, if_neg hs2]
    rw [hstep, ih fuel (i + 1) (fun k hk => by
      have := h (k + 1) (Nat.succ_lt_succ hk)
      rwa [show i + (k + 1) = i + 1 + k by omega] at this)]
    rw [show i + 1 + n = i + (n + 1) by omega]

/-- C9: pollJobStatus resolves only with a succeeded job; reaching a
failed job (after any run of queued/running polls) throws the job's
message (defaulting only when the message is absent or empty); reaching a
404 throws 'Job not found'; and 120 polls without a terminal status
throw the timeout error. -/
theorem pollJobStatus_terminal :
    (∀ (rs : Nat → PollResponse) (job : JobStatus),
      pollJobStatus rs = .ok job → job.status = .succeeded) ∧
    (∀ (rs : Nat → PollResponse) (i : Nat) (job : JobStatus),
      (∀ k, k < i → Continuing (rs k)) → i < maxAttempts → rs i = .ok job →
      job.status = .failed →
      pollJobStatus rs = .error (failMessage job) ∧
        ∀ m, job.message = some m → m ≠ "" → failMessage job = m) ∧
    (∀ (rs : Nat → PollResponse) (i : Nat),
      (∀ k, k < i → Continuing (rs k)) → i < maxAttempts → rs i = .http404 →
      pollJobStatus rs = .error "Job not found") ∧
    (∀ rs : Nat → PollResponse,
      (∀ k, k < maxAttempts → Continuing (rs k)) →
      pollJobStatus rs = .error "Analysis timeout - job did not complete in time") := by
  have hreach : ∀ (rs : Nat → PollResponse) (i : Nat),
      (∀ k, k < i → Continuing (rs k)) → i < maxAttempts →
      pollJobStatus rs = pollGo rs (maxAttempts - i) i := by
    intro rs i h hi
    have h2 : (maxAttempts - i) + i = maxAttempts := by omega
    calc pollJobStatus rs = pollGo rs ((maxAttempts - i) + i) 0 := by
          unfold pollJobStatus
          rw [h2]
      _ = pollGo rs (maxAttempts - i) (0 + i) :=
          pollGo_skip i (maxAttempts - i) 0 (fun k hk => by simpa using h k hk)
      _ = pollGo rs (maxAttempts - i) i := by rw [Nat.zero_add]
  refine ⟨?_, ?_, ?_, ?_⟩
  · intro rs job h
    exact pollGo_ok h
  · intro rs i job h hi hri hstat
    constructor
    · rw [hreach rs i h hi]
      rw [show maxAttempts - i = (maxAttempts - i - 1) + 1 by
        unfold maxAttempts at hi ⊢
        omega]
      rw [pollGo_succ]
      simp only [hri]
      rw [if_neg (by rw [hstat]; intro hcon; cases hcon), if_pos hstat]
    · intro m hm hne
      unfold failMessage
      simp only [hm]
      rw [if_neg hne]
  · intro rs i h hi hri
    rw [hreach rs i h hi]
    rw [show maxAttempts - i = (maxAttempts - i - 1) + 1 by
      unfold maxAttempts at hi ⊢
      omega]
    rw [pollGo_succ]
    simp only [hri]
  · intro rs h
    have h2 : 0 + maxAttempts = maxAttempts := by omega
    calc pollJobStatus rs = pollGo rs (0 + maxAttempts) 0 := by
          unfold pollJobStatus
          rw [h2]
      _ = pollGo rs 0 (0 + maxAttempts) :=
          pollGo_skip maxAttempts 0 0 (fun k hk => by simpa using h k hk)
      _ = .error "Analysis timeout - job did not complete in time" := rfl

/-- A failed-job status with a message, for the concrete run. -/
def jobFailedSample : JobStatus := ⟨"job-1", "14b92d4a", .failed, 40, some "boom"⟩

/-- Concrete run: a job that immediately reports failure makes the poll
throw its message. -/
theorem pollJobStatus_terminal_witness :
    pollJobStatus (fun _ => .ok jobFailedSample) = .error (failMessage jobFailedSample) ∧
    failMessage jobFailedSample = "boom" := by
  have h := pollJobStatus_terminal.2.1 (fun _ => .ok jobFailedSample) 0
    jobFailedSample (fun k hk => absurd hk (Nat.not_lt_zero k)) (by decide) rfl rfl
  exact ⟨h.1, h.2 "boom" rfl (by decide)⟩

/-! ## Frontend upload-service batched ingestion.
Embeds uploadAndAnalyze of src/frontend/src/app/services/upload-service.ts:
the file's lines are posted in consecutive slices of BATCH_SIZE = 1000
(lines.slice(i*1000, i*1000+1000) for i below
max(1, ceil(lines.length/1000))), and after each batch the progress
callback receives Math.round(((i+1)/totalBatches)*100). -/

def BATCH_SIZE : Nat := 1000

/-- totalBatches = Math.max(1, Math.ceil(lines.length / BATCH_SIZE)). -/
def totalBatches (n : Nat) : Nat := max 1 ((n + BATCH_SIZE - 1) / BATCH_SIZE)

/-- The i-th posted batch: lines.slice(i*BATCH_SIZE, (i+1)*BATCH_SIZE). -/
def batchAt (lines : List String) (i : Nat) : List String :=
  (lines.drop (i * BATCH_SIZE)).take BATCH_SIZE

/-- All batches posted to /api/ingest/batch, in posting order. -/
def postedBatches (lines : List String) : List (List String) :=
  (List.range (totalBatches lines.length)).map (batchAt lines)

/-- Math.round(((i + 1) / n) * 100) over the exact rationals:
floor(100 (i+1)/n + 1/2). -/
def progressAt (n i : Nat) : Nat := (200 * (i + 1) + n) / (2 * n)

/-- The progress values reported after each batch, in order. -/
def progressReports (lines : List String) : List Nat :=
  (List.range (totalBatches lines.length)).map
    (fun i => progressAt (totalBatches lines.length) i)

lemma flatten_chunks (k : Nat) :
    ∀ l : List String, l.length ≤ k * BATCH_SIZE →
      ((List.range k).map (batchAt l)).flatten = l := by
  induction k with
  | zero =>
    intro l hl
    simp only [Nat.zero_mul, Nat.le_zero] at hl
    rw [List.eq_nil_of_length_eq_zero hl]
    rfl
  | succ k ih =>
    intro l hl
    rw [show List.range (k + 1) = 0 :: (List.range k).map Nat.succ from by
      simpa using List.range_succ_eq_map k]
    rw [List.map_cons, List.map_map, List.flatten_cons]
    have hfun : (batchAt l) ∘ Nat.succ = batchAt (l.drop BATCH_SIZE) := by
      funext i
      show (l.drop (Nat.succ i * BATCH_SIZE)).take BATCH_SIZE =
        ((l.drop BATCH_SIZE).drop (i * BATCH_SIZE)).take BATCH_SIZE
      rw [List.drop_drop, Nat.succ_mul, Nat.add_comm (BATCH_SIZE) (i * BATCH_SIZE)]
    rw [hfun]
    rw [ih (l.drop BATCH_SIZE) (by
      rw [List.length_drop]
      rw [Nat.succ_mul] at hl
      omega)]
    show (l.drop (0 * BATCH_SIZE)).take BATCH_SIZE ++ l.drop BATCH_SIZE = l
    rw [Nat.zero_mul, List.drop_zero]
    exact List.take_append_drop BATCH_SIZE l

lemma length_le_totalBatches_mul (n : Nat) : n ≤ totalBatches n * BATCH_SIZE := by
  unfold totalBatches BATCH_SIZE
  have h1 : n ≤ (n + 1000 - 1) / 1000 * 1000 := by omega
  calc n ≤ (n + 1000 - 1) / 1000 * 1000 := h1
    _ ≤ max 1 ((n + 1000 - 1) / 1000) * 1000 :=
        Nat.mul_le_mul_right 1000 (Nat.le_max_right _ _)

lemma progressAt_last (m : Nat) : progressAt (m + 1) m = 100 := by
  unfold progressAt
  rw [show 200 * (m + 1) + (m + 1) = (m + 1) + (2 * (m + 1)) * 100 by ring]
  rw [Nat.add_mul_div_left _ _ (by omega : 0 < 2 * (m + 1))]
  rw [Nat.div_eq_of_lt (by omega)]

/-- C10: uploadAndAnalyze posts the file's lines in consecutive batches of
at most 1000 lines whose concatenation is exactly the original line list
(every line, empty ones included, once and in order), and the reported
progress sequence round(100·(i+1)/totalBatches) is non-decreasing and
ends at exactly 100. -/
theorem upload_batching (lines : List String) :
    (∀ b ∈ postedBatches lines, b.length ≤ BATCH_SIZE) ∧
    (postedBatches lines).flatten = lines ∧
    (progressReports lines).Pairwise (· ≤ ·) ∧
    (progressReports lines).getLast? = some 100 := by
  refine ⟨?_, ?_, ?_, ?_⟩
  · intro b hb
    rcases List.mem_map.mp hb with ⟨i, _, rfl⟩
    exact List.length_take_le BATCH_SIZE _
  · exact flatten_chunks _ lines (length_le_totalBatches_mul lines.length)
  · unfold progressReports
    exact List.Pairwise.map _
      (fun a b hab => by
        unfold progressAt
        exact Nat.div_le_div_right (by omega))
      (List.pairwise_lt_range _)
  · unfold progressReports
    obtain ⟨m, hm⟩ : ∃ m, totalBatches lines.length = m + 1 :=
      ⟨totalBatches lines.length - 1, by
        have : 1 ≤ totalBatches lines.length := Nat.le_max_left _ _
        omega⟩
    rw [hm]
    rw [show List.range (m + 1) = List.range m ++ [m] from by
      simpa using List.range_succ m]
    rw [List.map_append, List.map_cons, List.map_nil, List.getLast?_concat]
    rw [progressAt_last]

/-- Concrete run: a three-line file (with an empty middle line) fits in
one batch, the posted batches flatten back to the file, and the final
reported progress is exactly 100. -/
theorem upload_batching_witness :
    ((postedBatches ["a", "", "b"]).flatten = ["a", "", "b"]) ∧
    (progressReports ["a", "", "b"]).getLast? = some 100 ∧
    (batchAt ["a", "", "b"] 0).length ≤ BATCH_SIZE :=
  ⟨(upload_batching ["a", "", "b"]).2.1,
   (upload_batching ["a", "", "b"]).2.2.2,
   (upload_batching ["a", "", "b"]).1 (batchAt ["a", "", "b"] 0)
     (List.mem_map_of_mem (batchAt ["a", "", "b"]) (by decide))⟩

end MBSE
